import Mathlib

/-! Verification of the tianchi_crawler Markdown conversion core
    (`tianchi_crawler/converter.py`): the link-to-citation rewriting pass,
    the pruning content filter, and the generation orchestrator. -/

namespace TianchiCrawler

/-! ### Python string primitives used by the converter -/

/-- Characters matched by the Python regex class `\\s` (Unicode whitespace),
    given by code point. -/
def pyIsSpace (c : Char) : Bool :=
  let n := c.toNat
  n == 0x20 || n == 0x9 || n == 0xa || n == 0xd || n == 0xb || n == 0xc ||
  (0x1c <= n && n <= 0x1f) || n == 0x85 || n == 0xa0 || n == 0x1680 ||
  (0x2000 <= n && n <= 0x200a) || n == 0x2028 || n == 0x2029 || n == 0x202f ||
  n == 0x205f || n == 0x3000

/-- Python `str.strip()`: drop leading and trailing whitespace. -/
def pyStrip (s : String) : String :=
  String.mk (((s.data.dropWhile pyIsSpace).reverse.dropWhile pyIsSpace).reverse)

/-- Python `text.count(" ")`: number of space characters. -/
def countSpaces (s : String) : Nat :=
  s.data.count ' '

/-- Whether `pat` occurs as a contiguous substring of `l`. -/
def hasSub (pat : List Char) : List Char → Bool
  | [] => pat.isEmpty
  | c :: rest => pat.isPrefixOf (c :: rest) || hasSub pat rest

/-- Fuelled worker for Python `str.replace`: scan left to right, replacing each
    (non-overlapping) occurrence of `pat` by `rep`.  Each step consumes at least
    one character, so fuel `l.length` is always sufficient. -/
def pyReplaceF (pat rep : List Char) : Nat → List Char → List Char
  | 0, l => l
  | _ + 1, [] => []
  | fuel + 1, c :: rest =>
    if pat.isPrefixOf (c :: rest) then
      rep ++ pyReplaceF pat rep fuel ((c :: rest).drop pat.length)
    else
      c :: pyReplaceF pat rep fuel rest

/-- Python `s.replace(old, new)` (for the non-empty patterns the converter uses). -/
def pyReplace (s old new : String) : String :=
  String.mk (pyReplaceF old.data new.data s.data.length s.data)

/-- The textual normalization of step 2 of `generate_markdown`:
    `raw_markdown.replace("    ```", "```")`. -/
def fenceNormalize (s : String) : String :=
  pyReplace s "    ```" "```"

/-- Modelled from the spec: "whitespace-delimited word count" as the C6 claim
    states it (the source instead computes `text.count(" ") + 1`): the number
    of maximal runs of non-whitespace characters. -/
def countWordsAux : Bool → List Char → Nat
  | _, [] => 0
  | inWord, c :: rest =>
    if pyIsSpace c then countWordsAux false rest
    else (if inWord then 0 else 1) + countWordsAux true rest

def specWhitespaceWordCount (s : String) : Nat :=
  countWordsAux false s.data

/-! ### The link pattern

`LINK_PATTERN = re.compile(r'!?\[([^\]]+)\]\(([^)]+?)(?:\s+"([^"]*)")?\)')`

The matcher below implements exactly the backtracking semantics of this
pattern at a fixed position: optional `!`, a bracketed non-empty text,
a lazily matched URL part, an optional space-separated quoted title,
and the closing parenthesis. -/

structure LinkMatch where
  image : Bool
  text : String
  url : String
  title : Option String
deriving Repr, DecidableEq

/-- Match the regex tail `\s+"([^"]*)"\)` at the current position. -/
def matchTitleClose (l : List Char) : Option (String × List Char) :=
  match l with
  | c :: r0 =>
    if pyIsSpace c then
      match r0.dropWhile pyIsSpace with
      | '"' :: r1 =>
        match r1.dropWhile (· ≠ '"') with
        | '"' :: ')' :: rem => some (String.mk (r1.takeWhile (· ≠ '"')), rem)
        | _ => none
      | _ => none
    else none
  | [] => none

/-- Match the lazy URL group `([^)]+?)` followed by `(?:\s+"([^"]*)")?\)`:
    grow the URL one character at a time and, after each character, first try
    the optional-title continuation, then the bare closing parenthesis. -/
def urlLoop (acc : List Char) : List Char → Option (String × Option String × List Char)
  | [] => none
  | c :: rest =>
    if c = ')' then none
    else
      match matchTitleClose rest with
      | some (t, rem) => some (String.mk (acc ++ [c]), some t, rem)
      | none =>
        match rest with
        | ')' :: rem => some (String.mk (acc ++ [c]), none, rem)
        | _ => urlLoop (acc ++ [c]) rest

/-- Match `\[([^\]]+)\]\(...\)` at the current position. -/
def matchLinkCore (l : List Char) : Option (String × String × Option String × List Char) :=
  match l with
  | '[' :: rest =>
    match rest.takeWhile (· ≠ ']') with
    | [] => none
    | txt =>
      match rest.dropWhile (· ≠ ']') with
      | ']' :: '(' :: r2 =>
        match urlLoop [] r2 with
        | some (url, title, rem) => some (String.mk txt, url, title, rem)
        | none => none
      | _ => none
  | _ => none

/-- Match the full `LINK_PATTERN` at the current position, returning the match
    data and the remaining input after the match. -/
def matchLinkAt (l : List Char) : Option (LinkMatch × List Char) :=
  match l with
  | '!' :: rest =>
    match matchLinkCore rest with
    | some (t, u, ti, rem) => some (⟨true, t, u, ti⟩, rem)
    | none => none
  | _ =>
    match matchLinkCore l with
    | some (t, u, ti, rem) => some (⟨false, t, u, ti⟩, rem)
    | none => none

/-! ### `fast_urljoin` and citation conversion -/

/-- `fast_urljoin` from the source; `uj` is the external `urllib.parse.urljoin`
    collaborator used in the final fallback branch. -/
def fast_urljoin (uj : String → String → String) (base url : String) : String :=
  if url.startsWith "http://" || url.startsWith "https://" ||
     url.startsWith "mailto:" || url.startsWith "//" then url
  else if url.startsWith "/" then
    (if base.endsWith "/" then base.dropRight 1 ++ url else base ++ url)
  else uj base url

/-- State of the citation scan: the insertion-ordered `link_map`
    (`resolved_url ↦ (sequence_number, description)`), the `url_cache`
    (`raw_target ↦ resolved_url`), and the running `counter`. -/
structure CiteState where
  link_map : List (String × Nat × String)
  url_cache : List (String × String)
  counter : Nat

/-- Resolve a raw link target exactly as `convert_links_to_citations` does:
    only when `base_url` is non-empty and the target is not already absolute,
    via the `url_cache`-memoised `fast_urljoin`. -/
def resolveUrl (uj : String → String → String) (base : String)
    (cache : List (String × String)) (url : String) : String × List (String × String) :=
  if base ≠ "" &&
     !(url.startsWith "http://" || url.startsWith "https://" || url.startsWith "mailto:") then
    match cache.lookup url with
    | some r => (r, cache)
    | none =>
      let r := fast_urljoin uj base url
      (r, cache ++ [(url, r)])
  else (url, cache)

/-- Build the stored description for a first-seen URL: the title if truthy,
    plus the link text when truthy and different from the title, joined by
    `" - "` and prefixed by `": "` when non-empty. -/
def buildDesc (text : String) (title : Option String) : String :=
  let d0 : List String := []
  let d1 := match title with
    | some t => if t ≠ "" then d0 ++ [t] else d0
    | none => d0
  let d2 :=
    if text ≠ "" && (match title with | some t => text ≠ t | none => true) then
      d1 ++ [text]
    else d1
  if d2 ≠ [] then ": " ++ String.intercalate " - " d2 else ""

/-- The single left-to-right scan of `convert_links_to_citations`, fuelled:
    each iteration consumes at least one character, so fuel `l.length + 1`
    is always sufficient.  Returns the rewritten text and the final state. -/
def citeLoopF (uj : String → String → String) (base : String) :
    Nat → CiteState → List Char → (List Char × CiteState)
  | 0, st, l => (l, st)
  | _ + 1, st, [] => ([], st)
  | fuel + 1, st, c :: rest =>
    match matchLinkAt (c :: rest) with
    | none =>
      let r := citeLoopF uj base fuel st rest
      (c :: r.1, r.2)
    | some (m, rem) =>
      let rc := resolveUrl uj base st.url_cache m.url
      let url := rc.1
      let step : Nat × CiteState :=
        match (st.link_map.lookup url : Option (Nat × String)) with
        | some (n, _) => (n, ⟨st.link_map, rc.2, st.counter⟩)
        | none =>
          (st.counter,
           ⟨st.link_map ++ [(url, (st.counter, buildDesc m.text m.title))], rc.2,
            st.counter + 1⟩)
      let repl : String :=
        if m.image = false then m.text ++ "⟨" ++ toString step.1 ++ "⟩"
        else "![" ++ m.text ++ "⟨" ++ toString step.1 ++ "⟩]"
      let r := citeLoopF uj base fuel step.2 rem
      (repl.data ++ r.1, r.2)

/-- Run the citation scan over a whole markdown string. -/
def citeScan (uj : String → String → String) (markdown base_url : String) :
    List Char × CiteState :=
  citeLoopF uj base_url (markdown.data.length + 1) ⟨[], [], 1⟩ markdown.data

/-- Stable insertion step for sorting reference entries by sequence number. -/
def insertByNum (e : String × Nat × String) :
    List (String × Nat × String) → List (String × Nat × String)
  | [] => [e]
  | f :: rest => if e.2.1 ≤ f.2.1 then e :: f :: rest else f :: insertByNum e rest

/-- Python `sorted(link_map.items(), key=lambda x: x[1][0])` (stable sort by
    sequence number). -/
def sortByNum (l : List (String × Nat × String)) : List (String × Nat × String) :=
  l.foldr insertByNum []

/-- One reference line: `⟨{num}⟩ {url}{desc}` followed by a newline. -/
def refLine (e : String × Nat × String) : String :=
  "⟨" ++ toString e.2.1 ++ "⟩ " ++ e.1 ++ e.2.2 ++ "\n"

/-- `DefaultMarkdownGenerator.convert_links_to_citations`. -/
def convert_links_to_citations (uj : String → String → String)
    (markdown : String) (base_url : String) : String × String :=
  let r := citeScan uj markdown base_url
  let references :=
    "\n\n## References\n\n" :: (sortByNum r.2.link_map).map refLine
  (String.mk r.1, String.join references)

/-! ### The generation orchestrator (`DefaultMarkdownGenerator.generate_markdown`)

The HTML renderer (`html2text.HTML2Text.handle`) and the standard-library
`urljoin` are external collaborators: they appear as function parameters.
The content filter argument likewise arrives as a (fallible) function, exactly
as `generate_markdown` receives a filter object. -/

/-- A value of an `html2text` rendering option. -/
inductive OptVal where
  | b (v : Bool)
  | n (v : Nat)
deriving Repr, DecidableEq

/-- The `default_options` dictionary of `generate_markdown`. -/
def default_options : List (String × OptVal) :=
  [("body_width", .n 0), ("ignore_emphasis", .b false), ("ignore_links", .b false),
   ("ignore_images", .b false), ("protect_links", .b false), ("single_line_break", .b true),
   ("mark_code", .b true), ("escape_snob", .b false)]

/-- Python `dict.update`: overwrite existing keys in place, append new ones. -/
def pyDictUpdate (d u : List (String × OptVal)) : List (String × OptVal) :=
  u.foldl (fun acc kv =>
    if (acc.lookup kv.1).isSome then
      acc.map (fun e => if e.1 = kv.1 then (e.1, kv.2) else e)
    else acc ++ [kv]) d

structure MarkdownGenerationResult where
  raw_markdown : String
  markdown_with_citations : String
  references_markdown : String
  fit_markdown : String
  fit_html : String
deriving Repr, DecidableEq

/-- The body of `generate_markdown` (everything inside the `try`): merge the
    option dictionaries, render, normalize code fences, optionally link
    citations, optionally run the content filter and render the fit HTML.
    Any failure of a collaborator aborts the body with its error message. -/
def generateMarkdownBody (uj : String → String → String)
    (render : List (String × OptVal) → String → Except String String)
    (content_filter : Option (String → Except String (List String)))
    (input_html base_url : String)
    (html2text_options : Option (List (String × OptVal)))
    (citations : Bool) : Except String MarkdownGenerationResult := do
  let options := match html2text_options with
    | some o => pyDictUpdate default_options o
    | none => default_options
  let rendered ← render options input_html
  let raw_markdown := fenceNormalize rendered
  let cite :=
    if citations then convert_links_to_citations uj raw_markdown base_url
    else (raw_markdown, "")
  match content_filter with
  | some f => do
    let fragments ← f input_html
    let filtered_html :=
      String.intercalate "\n" (fragments.map (fun s => "<div>" ++ s ++ "</div>"))
    let fit_markdown ← render options filtered_html
    pure ⟨raw_markdown, cite.1, cite.2, fit_markdown, filtered_html⟩
  | none => pure ⟨raw_markdown, cite.1, cite.2, "", ""⟩

/-- `DefaultMarkdownGenerator.generate_markdown`: the body wrapped in the
    `try/except` that converts any escaped error into an error-bearing result. -/
def generate_markdown (uj : String → String → String)
    (render : List (String × OptVal) → String → Except String String)
    (content_filter : Option (String → Except String (List String)))
    (input_html base_url : String)
    (html2text_options : Option (List (String × OptVal)))
    (citations : Bool) : MarkdownGenerationResult :=
  match generateMarkdownBody uj render content_filter input_html base_url
      html2text_options citations with
  | .ok r => r
  | .error e => ⟨"Error: " ++ e, "Error: " ++ e, "", "", ""⟩

/-! ### The parsed DOM tree (`bs4` tree as the filter sees it) -/

/-- Element attributes: `bs4` stores `class` as a list of names, `id` as a
    string; all other attributes are irrelevant to the filter. -/
structure Attrs where
  classes : Option (List String)
  id : Option String
  others : List (String × String)

inductive HNode where
  | elem (tag : String) (attrs : Attrs) (children : List HNode)
  | text (s : String)
  | comment (s : String)

def tagName : HNode → String
  | .elem t _ _ => t
  | _ => ""

def isElem : HNode → Bool
  | .elem _ _ _ => true
  | _ => false

def childrenOf : HNode → List HNode
  | .elem _ _ cs => cs
  | _ => []

/-- Minimal HTML escaping used when serializing text nodes. -/
def htmlEscapeChar (c : Char) : List Char :=
  if c = '&' then "&amp;".data
  else if c = '<' then "&lt;".data
  else if c = '>' then "&gt;".data
  else [c]

def htmlEscape (s : String) : String :=
  String.mk (s.data.map htmlEscapeChar).flatten

def serializeAttrs (a : Attrs) : String :=
  (match a.classes with
   | some cls => " class=\"" ++ String.intercalate " " cls ++ "\""
   | none => "") ++
  (match a.id with
   | some i => " id=\"" ++ i ++ "\""
   | none => "") ++
  String.join (a.others.map (fun kv => " " ++ kv.1 ++ "=\"" ++ kv.2 ++ "\""))

mutual

/-- `str(element)`: serialize a node back to HTML. -/
def serializeNode : HNode → String
  | .text s => htmlEscape s
  | .comment s => "<!--" ++ s ++ "-->"
  | .elem tag attrs cs =>
    "<" ++ tag ++ serializeAttrs attrs ++ ">" ++ serializeList cs ++ "</" ++ tag ++ ">"

def serializeList : List HNode → String
  | [] => ""
  | c :: r => serializeNode c ++ serializeList r

end

mutual

/-- `node.get_text(strip=True)`: every text node stripped individually, then
    concatenated. -/
def strippedText : HNode → String
  | .text s => pyStrip s
  | .comment _ => ""
  | .elem _ _ cs => strippedTextList cs

def strippedTextList : List HNode → String
  | [] => ""
  | c :: r => strippedText c ++ strippedTextList r

end

/-- `len(node.get_text(strip=True))`. -/
def textLen (n : HNode) : Nat := (strippedText n).length

/-- `node.encode_contents().decode("utf-8")`: the serialized children. -/
def innerHTML : HNode → String
  | .elem _ _ cs => serializeList cs
  | .text s => s
  | .comment s => s

/-- `len(node.encode_contents().decode("utf-8"))`. -/
def tagLen (n : HNode) : Nat := (innerHTML n).length

/-- `bs4` `Tag.string`: the unique string reached through single-child
    descent, `None` for zero or several children. -/
def nodeString : HNode → Option String
  | .text s => some s
  | .comment s => some s
  | .elem _ _ [c] => nodeString c
  | .elem _ _ _ => none

/-- `sum(len(s.strip()) for s in (a.string for a in node.find_all("a",
    recursive=False)) if s)`: direct child anchors only, each contributing the
    stripped length of its `.string` (nothing when `.string` is `None`). -/
def linkTextLen (n : HNode) : Nat :=
  match n with
  | .elem _ _ cs =>
    ((cs.filter (fun c => tagName c == "a")).map (fun a =>
        match nodeString a with
        | some s => (pyStrip s).length
        | none => 0)).sum
  | _ => 0

/-! ### The pruning content filter (`PruningContentFilter`) -/

/-- `self.excluded_tags` from `RelevantContentFilter.__init__`. -/
def excluded_tags : List String :=
  ["nav", "footer", "header", "aside", "script", "style", "form", "iframe", "noscript"]

/-- The alternatives of `self.negative_patterns`
    (`re.compile(r"nav|footer|header|sidebar|ads|comment|promo|advert|social|share", re.I)`). -/
def negative_pattern_alts : List String :=
  ["nav", "footer", "header", "sidebar", "ads", "comment", "promo", "advert", "social", "share"]

/-- Case-insensitive comparison of a (lowercase ASCII) pattern character with
    a subject character, as `re.I` acts on this all-ASCII pattern. -/
def charMatchCI (p c : Char) : Bool :=
  p == c || (65 <= c.toNat && c.toNat <= 90 && p.toNat == c.toNat + 32)

/-- Case-insensitive prefix test for one pattern alternative. -/
def isPrefixOfCI : List Char -> List Char -> Bool
  | [], _ => true
  | _ :: _, [] => false
  | p :: ps, c :: cs => charMatchCI p c && isPrefixOfCI ps cs

/-- `self.negative_patterns.match(s)`: case-insensitive match anchored at the
    start of the string, i.e. some alternative is a prefix of the input. -/
def negMatch (s : String) : Bool :=
  negative_pattern_alts.any (fun p => isPrefixOfCI p.data s.data)

/-- The mutable configuration of `PruningContentFilter.__init__`. -/
structure PruningCfg where
  min_word_threshold : Option Nat
  threshold_type : String
  threshold : ℝ

/-- `self.tag_importance` with its `.get(name, 0.7)` default. -/
noncomputable def tag_importance (tag : String) : ℝ :=
  if tag = "article" then 1.5 else if tag = "main" then 1.4
  else if tag = "section" then 1.3 else if tag = "p" then 1.2
  else if tag = "h1" then 1.4 else if tag = "h2" then 1.3
  else if tag = "h3" then 1.2 else if tag = "div" then 0.7
  else if tag = "span" then 0.6 else 0.7

/-- `self.tag_weights` with its `.get(tag, 0.5)` default. -/
noncomputable def tag_weights (tag : String) : ℝ :=
  if tag = "div" then 0.5 else if tag = "p" then 1.0
  else if tag = "article" then 1.5 else if tag = "section" then 1.0
  else if tag = "span" then 0.3 else if tag = "li" then 0.5
  else if tag = "ul" then 0.5 else if tag = "ol" then 0.5
  else if tag = "h1" then 1.2 else if tag = "h2" then 1.1
  else if tag = "h3" then 1.0 else if tag = "h4" then 0.9
  else if tag = "h5" then 0.8 else if tag = "h6" then 0.7 else 0.5

/-- `self.metric_config`: every metric is enabled. -/
def metric_config (k : String) : Bool :=
  k = "text_density" || k = "link_density" || k = "tag_weight" ||
  k = "class_id_weight" || k = "text_length"

/-- `self.metric_weights`. -/
noncomputable def metric_weights (k : String) : ℝ :=
  if k = "text_density" then 0.4 else if k = "link_density" then 0.2
  else if k = "tag_weight" then 0.2 else if k = "class_id_weight" then 0.1
  else if k = "text_length" then 0.1 else 0

/-- `PruningContentFilter._compute_class_id_weight`. -/
noncomputable def compute_class_id_weight (n : HNode) : ℝ :=
  match n with
  | .elem _ attrs _ =>
    let s0 : ℝ := 0
    let s1 := match attrs.classes with
      | some cls => if negMatch (String.intercalate " " cls) then s0 - 0.5 else s0
      | none => s0
    (match attrs.id with
     | some i => if negMatch i then s1 - 0.5 else s1
     | none => s1)
  | _ => 0

/-- The `min_word_threshold` override guard at the top of
    `_compute_composite_score`: fires when the (truthy) threshold is set and
    `text.count(" ") + 1` falls below it. -/
def minWordGuard (cfg : PruningCfg) (n : HNode) : Bool :=
  match cfg.min_word_threshold with
  | none => false
  | some t => (t != 0) && decide (countSpaces (strippedText n) + 1 < t)

/-- `PruningContentFilter._compute_composite_score`. -/
noncomputable def compute_composite_score (cfg : PruningCfg) (node : HNode)
    (text_len tag_len link_text_len : Nat) : ℝ :=
  if minWordGuard cfg node then -1.0
  else
    let s0 : ℝ := 0.0
    let w0 : ℝ := 0.0
    let s1 := if metric_config "text_density" then
        s0 + metric_weights "text_density" *
          (if tag_len > 0 then (text_len : ℝ) / (tag_len : ℝ) else 0)
      else s0
    let w1 := if metric_config "text_density" then w0 + metric_weights "text_density" else w0
    let s2 := if metric_config "link_density" then
        s1 + metric_weights "link_density" *
          (1 - (if text_len > 0 then (link_text_len : ℝ) / (text_len : ℝ) else 0))
      else s1
    let w2 := if metric_config "link_density" then w1 + metric_weights "link_density" else w1
    let s3 := if metric_config "tag_weight" then
        s2 + metric_weights "tag_weight" * tag_weights (tagName node)
      else s2
    let w3 := if metric_config "tag_weight" then w2 + metric_weights "tag_weight" else w2
    let s4 := if metric_config "class_id_weight" then
        s3 + metric_weights "class_id_weight" * max 0 (compute_class_id_weight node)
      else s3
    let w4 := if metric_config "class_id_weight" then w3 + metric_weights "class_id_weight" else w3
    let s5 := if metric_config "text_length" then
        s4 + metric_weights "text_length" * Real.log ((text_len : ℝ) + 1)
      else s4
    let w5 := if metric_config "text_length" then w4 + metric_weights "text_length" else w4
    if w5 > 0 then s5 / w5 else 0

/-- The composite score of a node on the metrics `_prune_tree` computes for it. -/
noncomputable def scoreOfNode (cfg : PruningCfg) (n : HNode) : ℝ :=
  compute_composite_score cfg n (textLen n) (tagLen n) (linkTextLen n)

/-- The dynamic-mode effective threshold of `_prune_tree`: three sequential
    multiplicative adjustments of the configured base threshold. -/
noncomputable def dynamicThreshold (threshold : ℝ) (tag : String)
    (text_len tag_len link_text_len : Nat) : ℝ :=
  let ti := tag_importance tag
  let text_ratio : ℝ := if tag_len > 0 then (text_len : ℝ) / (tag_len : ℝ) else 0
  let link_ratio : ℝ := if text_len > 0 then (link_text_len : ℝ) / (text_len : ℝ) else 1
  let t1 := if ti > 1 then threshold * 0.8 else threshold
  let t2 := if text_ratio > 0.4 then t1 * 0.9 else t1
  let t3 := if link_ratio > 0.6 then t2 * 1.2 else t2
  t3

/-- The removal decision of `_prune_tree` for the current node. -/
noncomputable def shouldRemoveNode (cfg : PruningCfg) (n : HNode) : Bool :=
  let score := scoreOfNode cfg n
  if cfg.threshold_type = "fixed" then decide (score < cfg.threshold)
  else decide (score <
    dynamicThreshold cfg.threshold (tagName n) (textLen n) (tagLen n) (linkTextLen n))

mutual

/-- `PruningContentFilter._remove_comments`. -/
def removeComments : HNode → HNode
  | .elem t a cs => .elem t a (removeCommentsL cs)
  | .text s => .text s
  | .comment s => .comment s

def removeCommentsL : List HNode → List HNode
  | [] => []
  | .comment _ :: rest => removeCommentsL rest
  | c :: rest => removeComments c :: removeCommentsL rest

end

mutual

/-- `PruningContentFilter._remove_unwanted_tags`: decompose every element
    whose tag is in the excluded set, at any depth. -/
def removeUnwantedTags : HNode → Option HNode
  | .elem tag attrs cs =>
    if excluded_tags.contains tag then none
    else some (.elem tag attrs (removeUnwantedL cs))
  | .text s => some (.text s)
  | .comment s => some (.comment s)

def removeUnwantedL : List HNode → List HNode
  | [] => []
  | c :: rest =>
    match removeUnwantedTags c with
    | some u => u :: removeUnwantedL rest
    | none => removeUnwantedL rest

end

mutual

/-- Whether a subtree still contains an element with an excluded tag. -/
def containsExcludedTag : HNode → Bool
  | .elem tag _ cs => excluded_tags.contains tag || containsExcludedL cs
  | _ => false

def containsExcludedL : List HNode → Bool
  | [] => false
  | c :: rest => containsExcludedTag c || containsExcludedL rest

end

mutual

/-- `PruningContentFilter._prune_tree`: score the node, remove its whole
    subtree when the decision fires, otherwise recurse into the direct
    element children. -/
noncomputable def pruneTree (cfg : PruningCfg) : HNode → Option HNode
  | .text s => some (.text s)
  | .comment s => some (.comment s)
  | .elem tag attrs cs =>
    if shouldRemoveNode cfg (.elem tag attrs cs) then none
    else some (.elem tag attrs (pruneChildren cfg cs))

noncomputable def pruneChildren (cfg : PruningCfg) : List HNode → List HNode
  | [] => []
  | .elem t a cs :: rest =>
    (match pruneTree cfg (.elem t a cs) with
     | some u => [u]
     | none => []) ++ pruneChildren cfg rest
  | c :: rest => c :: pruneChildren cfg rest

end

/-- The surviving direct children of the body after the full filter pipeline
    (comment removal, unconditional excluded-tag removal, pruning), restricted
    to elements with non-empty stripped text. -/
noncomputable def filterSurvivors (cfg : PruningCfg) (body : HNode) : List HNode :=
  match removeUnwantedTags (removeComments body) with
  | none => []
  | some b2 =>
    match pruneTree cfg b2 with
    | none => []
    | some b3 =>
      (childrenOf b3).filter (fun e => isElem e && decide (0 < textLen e))

/-- `PruningContentFilter.filter_content` on an already-parsed body. -/
noncomputable def filter_content (cfg : PruningCfg) (body : HNode) : List String :=
  (filterSurvivors cfg body).map serializeNode

/-- Invariant of the citation scan state: sequence numbers are exactly
    `1, 2, …` in insertion order, resolved URLs are pairwise distinct, and the
    counter is one past the number of assigned entries. -/
def CiteInv (st : CiteState) : Prop :=
  st.link_map.map (fun e => e.2.1) = List.range' 1 st.link_map.length ∧
  (st.link_map.map Prod.fst).Nodup ∧
  st.counter = st.link_map.length + 1

/-! ### Helper lemmas -/

lemma pyReplaceF_of_not_hasSub (pat rep : List Char) :
    ∀ l : List Char, hasSub pat l = false →
      ∀ fuel : Nat, l.length ≤ fuel → pyReplaceF pat rep fuel l = l := by
  intro l
  induction l with
  | nil =>
    intro _ fuel _
    cases fuel with
    | zero => rfl
    | succ f => rfl
  | cons c rest ih =>
    intro h fuel hf
    have hsplit : pat.isPrefixOf (c :: rest) = false ∧ hasSub pat rest = false := by
      have := h
      rw [hasSub] at this
      exact ⟨by cases hp : pat.isPrefixOf (c :: rest) <;> simp [hp] at this ⊢,
             by cases hs : hasSub pat rest <;> simp [hs] at this ⊢⟩
    cases fuel with
    | zero => simp at hf
    | succ f =>
      rw [pyReplaceF, if_neg (by simp [hsplit.1])]
      have : rest.length ≤ f := by simpa using hf
      rw [ih hsplit.2 f this]

lemma pyReplaceF_fuel_irrel (pat rep : List Char) (hp : pat ≠ []) :
    ∀ (fuel₁ : Nat) (l : List Char) (fuel₂ : Nat),
      l.length ≤ fuel₁ → l.length ≤ fuel₂ →
      pyReplaceF pat rep fuel₁ l = pyReplaceF pat rep fuel₂ l := by
  intro fuel₁
  induction fuel₁ with
  | zero =>
    intro l fuel₂ h1 _
    have : l = [] := List.length_eq_zero.mp (Nat.le_zero.mp h1)
    subst this
    cases fuel₂ with
    | zero => rfl
    | succ f => rfl
  | succ f1 ih =>
    intro l fuel₂ h1 h2
    cases l with
    | nil =>
      cases fuel₂ with
      | zero => rfl
      | succ f => rfl
    | cons c rest =>
      cases fuel₂ with
      | zero => simp at h2
      | succ f2 =>
        rw [pyReplaceF, pyReplaceF]
        by_cases hpre : pat.isPrefixOf (c :: rest) = true
        · rw [if_pos hpre, if_pos hpre]
          have hlen : ((c :: rest).drop pat.length).length ≤ rest.length := by
            rw [List.length_drop]
            have : 1 ≤ pat.length := by
              cases pat with
              | nil => exact absurd rfl hp
              | cons a as => simp
            simp only [List.length_cons]
            omega
          have hl1 : ((c :: rest).drop pat.length).length ≤ f1 := by
            have : rest.length ≤ f1 := by simpa using h1
            omega
          have hl2 : ((c :: rest).drop pat.length).length ≤ f2 := by
            have : rest.length ≤ f2 := by simpa using h2
            omega
          rw [ih _ _ hl1 hl2]
        · rw [if_neg hpre, if_neg hpre]
          have hl1 : rest.length ≤ f1 := by simpa using h1
          have hl2 : rest.length ≤ f2 := by simpa using h2
          rw [ih _ _ hl1 hl2]

lemma resolveUrl_empty_base (uj : String → String → String)
    (cache : List (String × String)) (url : String) :
    resolveUrl uj "" cache url = (url, cache) := by
  simp [resolveUrl]

/-- With an empty base URL the external `urljoin` collaborator is never
    consulted: the scan result does not depend on it. -/
lemma citeLoopF_uj_irrel (uj₁ uj₂ : String → String → String) :
    ∀ (fuel : Nat) (st : CiteState) (l : List Char),
      citeLoopF uj₁ "" fuel st l = citeLoopF uj₂ "" fuel st l := by
  intro fuel
  induction fuel with
  | zero => intro st l; rfl
  | succ f ih =>
    intro st l
    cases l with
    | nil => rfl
    | cons c rest =>
      rw [citeLoopF, citeLoopF]
      cases hm : matchLinkAt (c :: rest) with
      | none => simp only [ih]
      | some p =>
        obtain ⟨m, rem⟩ := p
        simp only [resolveUrl_empty_base, ih]

/-! ### Claim theorems -/

/-- C1: `generate_markdown` never propagates an exception: for every input
    HTML, base URL, render options, filter configuration and citation flag
    (and any behaviour of the external renderer/urljoin collaborators), the
    call either returns the successful result of its body, or — when the body
    raises — a `MarkdownGenerationResult` whose `raw_markdown` and
    `markdown_with_citations` both carry the short error description and whose
    `references_markdown`, `fit_markdown` and `fit_html` are all empty. -/
theorem c1_failure_containment :
    ∀ (uj : String → String → String)
      (render : List (String × OptVal) → String → Except String String)
      (content_filter : Option (String → Except String (List String)))
      (input_html base_url : String)
      (html2text_options : Option (List (String × OptVal)))
      (citations : Bool),
      (∃ r, generateMarkdownBody uj render content_filter input_html base_url
              html2text_options citations = .ok r ∧
            generate_markdown uj render content_filter input_html base_url
              html2text_options citations = r) ∨
      (∃ e, generateMarkdownBody uj render content_filter input_html base_url
              html2text_options citations = .error e ∧
            generate_markdown uj render content_filter input_html base_url
              html2text_options citations =
              ⟨"Error: " ++ e, "Error: " ++ e, "", "", ""⟩) := by
  intro uj render cf html base opts cits
  cases h : generateMarkdownBody uj render cf html base opts cits with
  | ok r => exact Or.inl ⟨r, rfl, by rw [generate_markdown, h]⟩
  | error e => exact Or.inr ⟨e, rfl, by rw [generate_markdown, h]⟩

/-- C2: on the Markdown text `Check [docs](http://x.com/a "Docs") and
    [again](http://x.com/a)` with empty base URL, both link occurrences get
    sequence number 1, the description is frozen from the first occurrence as
    `: Docs - docs`, the rewritten text is `Check docs⟨1⟩ and again⟨1⟩`, and
    the references block has exactly one per-URL entry line
    `⟨1⟩ http://x.com/a: Docs - docs`. -/
theorem c2_citation_numbering :
    ∀ uj : String → String → String,
      convert_links_to_citations uj
          "Check [docs](http://x.com/a \"Docs\") and [again](http://x.com/a)" "" =
        ("Check docs⟨1⟩ and again⟨1⟩",
         "\n\n## References\n\n⟨1⟩ http://x.com/a: Docs - docs\n") ∧
      (citeScan uj
          "Check [docs](http://x.com/a \"Docs\") and [again](http://x.com/a)" "").2.link_map =
        [("http://x.com/a", 1, ": Docs - docs")] := by
  intro uj
  have h : ∀ fuel st l, citeLoopF uj "" fuel st l = citeLoopF (fun _ u => u) "" fuel st l :=
    citeLoopF_uj_irrel uj (fun _ u => u)
  constructor
  · show (let r := citeScan uj _ ""
      (String.mk r.1,
       String.join ("\n\n## References\n\n" :: (sortByNum r.2.link_map).map refLine))) = _
    rw [citeScan, h]
    rfl
  · rw [citeScan, h]
    rfl

/-- C8 counterexample: the claim says a four-spaces-plus-fence sequence that
    does not begin a line is left unchanged, but the code's global
    `str.replace` rewrites it: on `"x    ```y"` (the sequence occurs mid-line,
    not at a line beginning) the normalization does alter the text. -/
theorem c8_counterexample :
    fenceNormalize "x    ```y" = "x```y" ∧ "x    ```y" ≠ "x```y" :=
  ⟨rfl, by decide⟩

/-- C8 amended: the step-2 normalization replaces every occurrence of four
    spaces followed by a triple-backtick fence marker — anywhere in the text,
    not only at the beginning of a line — with the bare fence marker, scanning
    left to right; text without that seven-character sequence is unchanged.
    The three parts fully characterize the scan: occurrence-free text is
    unchanged, a text starting with the sequence has it replaced, and a text
    starting with a non-matching character passes that character through with
    the scan continuing on the rest — so an occurrence is rewritten wherever
    it sits, mid-line included. -/
theorem c8_amended :
    (∀ s : String, hasSub "    ```".data s.data = false → fenceNormalize s = s) ∧
    (∀ t : List Char,
      fenceNormalize (String.mk ("    ```".data ++ t)) =
        String.mk ("```".data ++ (fenceNormalize (String.mk t)).data)) ∧
    (∀ (c : Char) (t : List Char),
      ("    ```".data.isPrefixOf (c :: t)) = false →
      fenceNormalize (String.mk (c :: t)) =
        String.mk (c :: (fenceNormalize (String.mk t)).data)) := by
  refine ⟨?_, ?_, ?_⟩
  · intro s h
    show pyReplace s "    ```" "```" = s
    rw [pyReplace]
    rw [pyReplaceF_of_not_hasSub _ _ _ h _ (le_refl _)]
  · intro t
    show pyReplace (String.mk ("    ```".data ++ t)) "    ```" "```" = _
    rw [pyReplace]
    have hdata : (String.mk ("    ```".data ++ t)).data = "    ```".data ++ t := rfl
    rw [hdata]
    have hpre : ("    ```".data).isPrefixOf ("    ```".data ++ t) = true := by
      cases t <;> rfl
    have h7 : ("    ```".data).length = 7 := rfl
    have hlen : ("    ```".data ++ t).length = t.length + 7 := by
      rw [List.length_append, h7]
      omega
    rw [hlen]
    have hstep :
        pyReplaceF "    ```".data "```".data (t.length + 7) ("    ```".data ++ t) =
          "```".data ++ pyReplaceF "    ```".data "```".data (t.length + 6)
            (("    ```".data ++ t).drop ("    ```".data).length) := by
      rw [show t.length + 7 = (t.length + 6) + 1 by omega]
      cases ht : "    ```".data ++ t with
      | nil => simp at ht
      | cons c r =>
        rw [pyReplaceF]
        rw [← ht]
        rw [if_pos hpre]
    rw [hstep]
    have hdrop : ("    ```".data ++ t).drop ("    ```".data).length = t := by
      simp
    rw [hdrop]
    have hfuel : pyReplaceF "    ```".data "```".data (t.length + 6) t =
        pyReplaceF "    ```".data "```".data t.length t :=
      pyReplaceF_fuel_irrel _ _ (by decide) _ _ _ (by omega) (le_refl _)
    rw [hfuel]
    rfl
  · intro c t hpre
    show pyReplace (String.mk (c :: t)) "    ```" "```" = _
    rw [pyReplace]
    have hdata : (String.mk (c :: t)).data = c :: t := rfl
    rw [hdata]
    have hlen : (c :: t).length = t.length + 1 := rfl
    rw [hlen]
    rw [pyReplaceF, if_neg (by simp [hpre])]
    rfl

/-- C8 amended, witness: the no-occurrence case applied at `"hello"`, and the
    pass-through case applied at a text whose occurrence sits mid-line. -/
theorem c8_amended_witness :
    (hasSub "    ```".data "hello".data = false ∧ fenceNormalize "hello" = "hello") ∧
    (("    ```".data.isPrefixOf ('a' :: "b    ```c".data)) = false ∧
     fenceNormalize (String.mk ('a' :: "b    ```c".data)) =
       String.mk ('a' :: (fenceNormalize (String.mk "b    ```c".data)).data)) :=
  ⟨⟨by decide, c8_amended.1 "hello" (by decide)⟩,
   ⟨by decide, c8_amended.2.2 'a' "b    ```c".data (by decide)⟩⟩

/-- C9 counterexample: the claim says the negative-keyword pattern matches the
    exact string `"ad"` and that a node whose class is exactly `"ad"` gets the
    −0.5 class signal; the compiled pattern's alternatives are
    `nav|footer|header|sidebar|ads|comment|promo|advert|social|share`, none of
    which matches at the start of `"ad"`, so the signal does not fire. -/
theorem c9_counterexample :
    negMatch "ad" = false ∧
    compute_class_id_weight (.elem "div" ⟨some ["ad"], none, []⟩ []) = 0 ∧
    (0 : ℝ) ≠ -0.5 := by
  have h : negMatch (String.intercalate " " ["ad"]) = false := by decide
  refine ⟨by decide, ?_, by norm_num⟩
  simp [compute_class_id_weight, h]

/-- C9 amended: the negative-keyword pattern matches, case-insensitively and
    anchored at the start of the string, each of `"nav"`, `"ads"` (not
    `"ad"`), `"footer"`, `"comment"`, and `"social"`; a node whose class
    attribute value is exactly one of those five strings triggers the −0.5
    class signal. -/
theorem c9_amended :
    negMatch "nav" = true ∧ negMatch "footer" = true ∧ negMatch "comment" = true ∧
    negMatch "social" = true ∧ negMatch "ads" = true ∧ negMatch "ad" = false ∧
    negMatch "NAV" = true ∧ negMatch "navigation" = true ∧ negMatch "xnav" = false ∧
    compute_class_id_weight (.elem "div" ⟨some ["nav"], none, []⟩ []) = -0.5 ∧
    compute_class_id_weight (.elem "div" ⟨some ["ads"], none, []⟩ []) = -0.5 ∧
    compute_class_id_weight (.elem "div" ⟨some ["footer"], none, []⟩ []) = -0.5 ∧
    compute_class_id_weight (.elem "div" ⟨some ["comment"], none, []⟩ []) = -0.5 ∧
    compute_class_id_weight (.elem "div" ⟨some ["social"], none, []⟩ []) = -0.5 := by
  have hw : ∀ c : String, negMatch (String.intercalate " " [c]) = negMatch c := by
    intro c
    rfl
  refine ⟨by decide, by decide, by decide, by decide, by decide, by decide,
    by decide, by decide, by decide, ?_, ?_, ?_, ?_, ?_⟩ <;>
  · rw [compute_class_id_weight]
    simp only [hw]
    rw [if_pos (by decide)]
    norm_num

/-- C3: in dynamic threshold mode the removal decision compares the composite
    score against the effective threshold obtained from the configured base
    threshold by three sequential multiplications (importance ×0.8, then
    text-ratio ×0.9, then link-ratio ×1.2, each applied to the already
    adjusted value, which equals the product of the fired factors); a node is
    removed iff its score is strictly below the final adjusted value, and an
    `article` node with text ratio 0.5 and link ratio 0.1 under base threshold
    0.6 gets effective threshold 0.6·0.8·0.9 = 0.432. -/
theorem c3_dynamic_threshold :
    (∀ (cfg : PruningCfg) (n : HNode), cfg.threshold_type ≠ "fixed" →
      (shouldRemoveNode cfg n = true ↔
        scoreOfNode cfg n <
          dynamicThreshold cfg.threshold (tagName n) (textLen n) (tagLen n) (linkTextLen n))) ∧
    (∀ (thr : ℝ) (tag : String) (tl gl ll : Nat),
      dynamicThreshold thr tag tl gl ll =
        thr * (if tag_importance tag > 1 then 0.8 else 1) *
          (if (if gl > 0 then (tl : ℝ) / (gl : ℝ) else 0) > 0.4 then 0.9 else 1) *
          (if (if tl > 0 then (ll : ℝ) / (tl : ℝ) else 1) > 0.6 then 1.2 else 1)) ∧
    dynamicThreshold 0.6 "article" 10 20 1 = 0.6 * 0.8 * 0.9 ∧
    (0.6 * 0.8 * 0.9 : ℝ) = 0.432 := by
  refine ⟨?_, ?_, ?_, by norm_num⟩
  · intro cfg n hne
    simp only [shouldRemoveNode]
    rw [if_neg hne]
    exact ⟨of_decide_eq_true, decide_eq_true⟩
  · intro thr tag tl gl ll
    simp only [dynamicThreshold]
    split_ifs <;> ring
  · have hti : tag_importance "article" = 1.5 := by
      rw [tag_importance]
      norm_num
    simp only [dynamicThreshold, hti]
    norm_num

/-- C3, witness: the dynamic-mode removal equivalence applied to a concrete
    configuration with `threshold_type = "dynamic"` and a concrete node. -/
theorem c3_dynamic_threshold_witness :
    (("dynamic" : String) ≠ "fixed") ∧
    (shouldRemoveNode ⟨none, "dynamic", 0.6⟩ (.elem "p" ⟨none, none, []⟩ [.text "hi"]) = true ↔
      scoreOfNode ⟨none, "dynamic", 0.6⟩ (.elem "p" ⟨none, none, []⟩ [.text "hi"]) <
        dynamicThreshold 0.6 (tagName (.elem "p" ⟨none, none, []⟩ [.text "hi"]))
          (textLen (.elem "p" ⟨none, none, []⟩ [.text "hi"]))
          (tagLen (.elem "p" ⟨none, none, []⟩ [.text "hi"]))
          (linkTextLen (.elem "p" ⟨none, none, []⟩ [.text "hi"]))) :=
  ⟨by decide, c3_dynamic_threshold.1 ⟨none, "dynamic", 0.6⟩ _ (by decide)⟩

/-- C6 counterexample: the claim promises the −1.0 override for every node
    whose whitespace-delimited word count is below `min_word_threshold`; the
    node `<p>a  b</p>` (text `"a  b"`, two whitespace-delimited words) under
    `min_word_threshold = 3` should therefore score −1.0, but the code counts
    `text.count(" ") + 1 = 3` words, skips the override, and produces a
    score different from −1.0. -/
theorem c6_counterexample :
    specWhitespaceWordCount
        (strippedText (.elem "p" ⟨none, none, []⟩ [.text "a  b"])) = 2 ∧
    (2 : Nat) < 3 ∧
    scoreOfNode ⟨some 3, "fixed", 0.48⟩ (.elem "p" ⟨none, none, []⟩ [.text "a  b"]) ≠ -1.0 := by
  refine ⟨by decide, by decide, ?_⟩
  have hguard : minWordGuard ⟨some 3, "fixed", 0.48⟩
      (.elem "p" ⟨none, none, []⟩ [.text "a  b"]) = false := by decide
  have htl : textLen (.elem "p" ⟨none, none, []⟩ [.text "a  b"]) = 4 := by decide
  have hgl : tagLen (.elem "p" ⟨none, none, []⟩ [.text "a  b"]) = 4 := by decide
  have hll : linkTextLen (.elem "p" ⟨none, none, []⟩ [.text "a  b"]) = 0 := by decide
  have hcw : compute_class_id_weight (.elem "p" ⟨none, none, []⟩ [.text "a  b"]) = 0 := by
    rw [compute_class_id_weight]
  have htw : tag_weights (tagName (.elem "p" ⟨none, none, []⟩ [.text "a  b"])) = 1.0 := by
    rw [tagName, tag_weights, if_neg (by decide), if_pos rfl]
  have hm1 : metric_config "text_density" = true := by decide
  have hm2 : metric_config "link_density" = true := by decide
  have hm3 : metric_config "tag_weight" = true := by decide
  have hm4 : metric_config "class_id_weight" = true := by decide
  have hm5 : metric_config "text_length" = true := by decide
  have hw1 : metric_weights "text_density" = 0.4 := by
    rw [metric_weights, if_pos rfl]
  have hw2 : metric_weights "link_density" = 0.2 := by
    rw [metric_weights, if_neg (by decide), if_pos rfl]
  have hw3 : metric_weights "tag_weight" = 0.2 := by
    rw [metric_weights, if_neg (by decide), if_neg (by decide), if_pos rfl]
  have hw4 : metric_weights "class_id_weight" = 0.1 := by
    rw [metric_weights, if_neg (by decide), if_neg (by decide), if_neg (by decide), if_pos rfl]
  have hw5 : metric_weights "text_length" = 0.1 := by
    rw [metric_weights, if_neg (by decide), if_neg (by decide), if_neg (by decide),
      if_neg (by decide), if_pos rfl]
  rw [scoreOfNode, htl, hgl, hll]
  simp only [compute_composite_score, hguard, Bool.false_eq_true, if_false,
    hm1, hm2, hm3, hm4, hm5, if_true, hcw, htw, hw1, hw2, hw3, hw4, hw5]
  have hlog : 0 ≤ Real.log 5 := Real.log_nonneg (by norm_num)
  norm_num
  intro h
  nlinarith [hlog]

/-- C6 amended: the override counts words as `text.count(" ") + 1` (number of
    space characters plus one, not whitespace-delimited words): if
    `min_word_threshold` is set (truthy) and that count is below it, the
    composite score is forced to −1.0, which guarantees removal under any
    positive effective threshold. -/
theorem c6_amended :
    ∀ (t : Nat) (tt : String) (th : ℝ) (n : HNode),
      t ≠ 0 → countSpaces (strippedText n) + 1 < t →
      scoreOfNode ⟨some t, tt, th⟩ n = -1.0 ∧
      ∀ thr : ℝ, 0 < thr → scoreOfNode ⟨some t, tt, th⟩ n < thr := by
  intro t tt th n ht hc
  have hg : minWordGuard ⟨some t, tt, th⟩ n = true := by
    simp only [minWordGuard]
    rw [Bool.and_eq_true]
    exact ⟨by simpa using ht, decide_eq_true hc⟩
  have hs : scoreOfNode ⟨some t, tt, th⟩ n = -1.0 := by
    rw [scoreOfNode, compute_composite_score, hg]
    rw [if_pos rfl]
  exact ⟨hs, fun thr hthr => by rw [hs]; linarith⟩

/-- C6 amended, witness: a one-word node under threshold 5. -/
theorem c6_amended_witness :
    ((5 : Nat) ≠ 0 ∧
     countSpaces (strippedText (.elem "p" ⟨none, none, []⟩ [.text "ab"])) + 1 < 5) ∧
    (scoreOfNode ⟨some 5, "fixed", 0.48⟩ (.elem "p" ⟨none, none, []⟩ [.text "ab"]) = -1.0 ∧
     ∀ thr : ℝ, 0 < thr →
       scoreOfNode ⟨some 5, "fixed", 0.48⟩ (.elem "p" ⟨none, none, []⟩ [.text "ab"]) < thr) :=
  ⟨⟨by decide, by decide⟩, c6_amended 5 "fixed" 0.48 _ (by decide) (by decide)⟩

/-- C7 counterexample: the claim says each direct child anchor contributes the
    length of its stripped visible text; for
    `<div><a>foo<b>bar</b></a></div>` the direct child anchor has stripped
    visible text `foobar` of length 6, but its `.string` is `None` (two
    children), so the code's `link_text_len` is 0. -/
theorem c7_counterexample :
    linkTextLen (.elem "div" ⟨none, none, []⟩
        [.elem "a" ⟨none, none, []⟩
          [.text "foo", .elem "b" ⟨none, none, []⟩ [.text "bar"]]]) = 0 ∧
    (strippedText (.elem "a" ⟨none, none, []⟩
        [.text "foo", .elem "b" ⟨none, none, []⟩ [.text "bar"]])).length = 6 ∧
    (0 : Nat) ≠ 6 :=
  ⟨by decide, by decide, by decide⟩

/-- C7 amended: `link_text_len` sums, over the direct child anchors only, the
    stripped length of each anchor's `.string` (the unique string reached by
    single-child descent); an anchor with zero children or with two or more
    children contributes 0 (not its stripped visible text), non-anchor
    children contribute nothing even when they contain anchors, and anchors
    nested deeper in the subtree contribute nothing. -/
theorem c7_amended :
    (∀ (tag : String) (attrs : Attrs) (pre post : List HNode) (aAttrs : Attrs) (s : String),
      linkTextLen (.elem tag attrs (pre ++ .elem "a" aAttrs [.text s] :: post)) =
        linkTextLen (.elem tag attrs pre) + (pyStrip s).length +
          linkTextLen (.elem tag attrs post)) ∧
    (∀ (tag : String) (attrs : Attrs) (pre post : List HNode) (aAttrs : Attrs)
       (c1 c2 : HNode) (cs : List HNode),
      linkTextLen (.elem tag attrs (pre ++ .elem "a" aAttrs (c1 :: c2 :: cs) :: post)) =
        linkTextLen (.elem tag attrs pre) + linkTextLen (.elem tag attrs post)) ∧
    (∀ (tag : String) (attrs : Attrs) (pre post : List HNode) (aAttrs : Attrs),
      linkTextLen (.elem tag attrs (pre ++ .elem "a" aAttrs [] :: post)) =
        linkTextLen (.elem tag attrs pre) + linkTextLen (.elem tag attrs post)) ∧
    (∀ (tag : String) (attrs : Attrs) (pre post : List HNode) (t : String)
       (dAttrs : Attrs) (ds : List HNode), t ≠ "a" →
      linkTextLen (.elem tag attrs (pre ++ .elem t dAttrs ds :: post)) =
        linkTextLen (.elem tag attrs pre) + linkTextLen (.elem tag attrs post)) := by
  refine ⟨?_, ?_, ?_, ?_⟩
  · intro tag attrs pre post aAttrs s
    have hstr : nodeString (HNode.elem "a" aAttrs [.text s]) = some s := rfl
    simp [linkTextLen, List.filter_append, List.map_append, List.sum_append,
      List.filter_cons, tagName, hstr]
    omega
  · intro tag attrs pre post aAttrs c1 c2 cs
    have hstr : nodeString (HNode.elem "a" aAttrs (c1 :: c2 :: cs)) = none := rfl
    simp [linkTextLen, List.filter_append, List.map_append, List.sum_append,
      List.filter_cons, tagName, hstr]
  · intro tag attrs pre post aAttrs
    have hstr : nodeString (HNode.elem "a" aAttrs []) = none := rfl
    simp [linkTextLen, List.filter_append, List.map_append, List.sum_append,
      List.filter_cons, tagName, hstr]
  · intro tag attrs pre post t dAttrs ds ht
    have hbeq : (tagName (HNode.elem t dAttrs ds) == "a") = false := by
      rw [tagName]
      exact beq_eq_false_iff_ne.mpr ht
    simp [linkTextLen, List.filter_append, List.map_append, List.sum_append,
      List.filter_cons, hbeq]

/-- C7 amended, witness: a non-anchor child containing a nested anchor
    contributes nothing. -/
theorem c7_amended_witness :
    (("div" : String) ≠ "a") ∧
    linkTextLen (.elem "p" ⟨none, none, []⟩
        (([] : List HNode) ++ .elem "div" ⟨none, none, []⟩
          [.elem "a" ⟨none, none, []⟩ [.text "zz"]] :: ([] : List HNode))) =
      linkTextLen (.elem "p" ⟨none, none, []⟩ []) +
        linkTextLen (.elem "p" ⟨none, none, []⟩ []) :=
  ⟨by decide, c7_amended.2.2.2 "p" ⟨none, none, []⟩ [] [] "div" ⟨none, none, []⟩
    [.elem "a" ⟨none, none, []⟩ [.text "zz"]] (by decide)⟩

lemma compute_class_id_weight_nonpos (n : HNode) : compute_class_id_weight n ≤ 0 := by
  cases n with
  | text s => simp [compute_class_id_weight]
  | comment s => simp [compute_class_id_weight]
  | elem t a cs =>
    obtain ⟨cls, i, os⟩ := a
    cases cls <;> cases i <;> simp [compute_class_id_weight] <;> split_ifs <;> norm_num

lemma max_class_id_zero (n : HNode) : max 0 (compute_class_id_weight n) = 0 :=
  max_eq_left (compute_class_id_weight_nonpos n)

lemma score_attrs_irrel (cfg : PruningCfg) (tag : String) (a1 a2 : Attrs)
    (cs : List HNode) (tl gl ll : Nat) :
    compute_composite_score cfg (.elem tag a1 cs) tl gl ll =
      compute_composite_score cfg (.elem tag a2 cs) tl gl ll := by
  simp only [compute_composite_score, max_class_id_zero, minWordGuard,
    strippedText, tagName]

/-- C10: class and id attributes can never influence a composite score or a
    removal decision: `_compute_class_id_weight` only returns values ≤ 0, the
    `max(0, ·)` clamp therefore zeroes the class/id term, and two nodes that
    differ only in their class and id attribute values always get equal
    scores and equal removal decisions. -/
theorem c10_class_id_no_influence :
    ∀ (cfg : PruningCfg) (tag : String) (cls1 cls2 : Option (List String))
      (id1 id2 : Option String) (others : List (String × String)) (cs : List HNode),
      scoreOfNode cfg (.elem tag ⟨cls1, id1, others⟩ cs) =
        scoreOfNode cfg (.elem tag ⟨cls2, id2, others⟩ cs) ∧
      shouldRemoveNode cfg (.elem tag ⟨cls1, id1, others⟩ cs) =
        shouldRemoveNode cfg (.elem tag ⟨cls2, id2, others⟩ cs) ∧
      (∀ n : HNode, compute_class_id_weight n ≤ 0) ∧
      (∀ n : HNode, max 0 (compute_class_id_weight n) = 0) := by
  intro cfg tag cls1 cls2 id1 id2 others cs
  have htl : textLen (.elem tag ⟨cls1, id1, others⟩ cs) =
      textLen (.elem tag ⟨cls2, id2, others⟩ cs) := rfl
  have hgl : tagLen (.elem tag ⟨cls1, id1, others⟩ cs) =
      tagLen (.elem tag ⟨cls2, id2, others⟩ cs) := rfl
  have hll : linkTextLen (.elem tag ⟨cls1, id1, others⟩ cs) =
      linkTextLen (.elem tag ⟨cls2, id2, others⟩ cs) := rfl
  have htn : tagName (.elem tag ⟨cls1, id1, others⟩ cs) =
      tagName (.elem tag ⟨cls2, id2, others⟩ cs) := rfl
  have hscore : scoreOfNode cfg (.elem tag ⟨cls1, id1, others⟩ cs) =
      scoreOfNode cfg (.elem tag ⟨cls2, id2, others⟩ cs) := by
    rw [scoreOfNode, scoreOfNode, htl, hgl, hll]
    exact score_attrs_irrel cfg tag _ _ cs _ _ _
  refine ⟨hscore, ?_, compute_class_id_weight_nonpos, max_class_id_zero⟩
  simp only [shouldRemoveNode]
  rw [hscore, htl, hgl, hll, htn]

lemma lookup_none_not_mem {β : Type} (url : String) :
    ∀ l : List (String × β), l.lookup url = none → url ∉ l.map Prod.fst := by
  intro l
  induction l with
  | nil => intro _ h; simp at h
  | cons kv rest ih =>
    obtain ⟨k, v⟩ := kv
    intro hl
    rw [List.lookup] at hl
    cases hbeq : (url == k) with
    | true => rw [hbeq] at hl; simp at hl
    | false =>
      rw [hbeq] at hl
      have hne : url ≠ k := by simpa using hbeq
      simp only [List.map_cons, List.mem_cons]
      rintro (h | h)
      · exact hne h
      · exact ih hl h

lemma citeLoopF_preserves_inv (uj : String → String → String) (base : String) :
    ∀ (fuel : Nat) (st : CiteState) (l : List Char),
      CiteInv st → CiteInv (citeLoopF uj base fuel st l).2 := by
  intro fuel
  induction fuel with
  | zero => intro st l h; exact h
  | succ f ih =>
    intro st l h
    cases l with
    | nil => exact h
    | cons c rest =>
      rw [citeLoopF]
      cases hm : matchLinkAt (c :: rest) with
      | none => exact ih st rest h
      | some p =>
        obtain ⟨m, rem⟩ := p
        dsimp only
        cases hl : (st.link_map.lookup (resolveUrl uj base st.url_cache m.url).1 :
            Option (Nat × String)) with
        | some nv =>
          obtain ⟨n0, d0⟩ := nv
          exact ih _ rem ⟨h.1, h.2.1, h.2.2⟩
        | none =>
          apply ih _ rem
          obtain ⟨hnum, hnodup, hctr⟩ := h
          have hmem := lookup_none_not_mem _ _ hl
          refine ⟨?_, ?_, ?_⟩
          · dsimp only
            rw [List.map_append, List.length_append, hnum, hctr]
            simp only [List.map_cons, List.map_nil, List.length_cons, List.length_nil]
            rw [List.range'_concat]
            simp [Nat.add_comm]
          · dsimp only
            rw [List.map_append]
            rw [List.nodup_append]
            refine ⟨hnodup, by simp, ?_⟩
            simp only [List.map_cons, List.map_nil]
            rw [List.disjoint_singleton]
            exact hmem
          · dsimp only
            rw [List.length_append, hctr]
            simp

lemma pairwise_num_of_inv {lm : List (String × Nat × String)}
    (h : lm.map (fun e => e.2.1) = List.range' 1 lm.length) :
    lm.Pairwise (fun a b => a.2.1 ≤ b.2.1) := by
  have hp : List.Pairwise (fun a b => a < b) (List.range' 1 lm.length) :=
    List.pairwise_lt_range' 1 lm.length
  rw [← h] at hp
  exact (List.pairwise_map.mp hp).imp le_of_lt

lemma sortByNum_eq_self :
    ∀ l : List (String × Nat × String),
      l.Pairwise (fun a b => a.2.1 ≤ b.2.1) → sortByNum l = l := by
  intro l
  induction l with
  | nil => intro _; rfl
  | cons a t ih =>
    intro h
    show insertByNum a (sortByNum t) = a :: t
    rw [ih h.of_cons]
    cases t with
    | nil => rfl
    | cons b t2 =>
      rw [insertByNum, if_pos]
      exact (List.pairwise_cons.mp h).1 b (List.mem_cons_self b t2)

/-- C4: for every markdown text and base URL, the references block is the
    header followed by exactly one entry line per distinct resolved URL that
    received a citation number during the scan (the entries of the final
    `link_map`), with no duplicate URLs, and the sequence numbers of those
    entries are exactly `1, 2, …, n` in order — ascending from 1. -/
theorem c4_references_structure :
    ∀ (uj : String → String → String) (markdown base_url : String),
      (convert_links_to_citations uj markdown base_url).2 =
        String.join ("\n\n## References\n\n" ::
          ((citeScan uj markdown base_url).2.link_map).map refLine) ∧
      (((citeScan uj markdown base_url).2.link_map).map Prod.fst).Nodup ∧
      ((citeScan uj markdown base_url).2.link_map).map (fun e => e.2.1) =
        List.range' 1 ((citeScan uj markdown base_url).2.link_map).length := by
  intro uj md base
  have hinv : CiteInv (citeScan uj md base).2 :=
    citeLoopF_preserves_inv uj base _ _ _ ⟨rfl, List.nodup_nil, rfl⟩
  obtain ⟨hnum, hnodup, -⟩ := hinv
  refine ⟨?_, hnodup, hnum⟩
  show String.join ("\n\n## References\n\n" ::
      (sortByNum (citeScan uj md base).2.link_map).map refLine) = _
  rw [sortByNum_eq_self _ (pairwise_num_of_inv hnum)]

lemma containsExcludedL_mem :
    ∀ cs : List HNode, containsExcludedL cs = false →
      ∀ c ∈ cs, containsExcludedTag c = false := by
  intro cs
  induction cs with
  | nil => intro _ c hc; simp at hc
  | cons a t ih =>
    intro h c hc
    rw [containsExcludedL, Bool.or_eq_false_iff] at h
    rcases List.mem_cons.mp hc with h1 | h1
    · rw [h1]; exact h.1
    · exact ih h.2 c h1

lemma removeUnwantedL_no_excluded :
    ∀ cs : List HNode, containsExcludedL (removeUnwantedL cs) = false := by
  apply removeUnwantedL.induct
    (fun t => (removeUnwantedTags t).all (fun u => !containsExcludedTag u) = true)
    (fun cs => containsExcludedL (removeUnwantedL cs) = false)
  · intro tag attrs cs hex
    rw [removeUnwantedTags, if_pos hex]
    rfl
  · intro tag attrs cs hex hcs
    rw [removeUnwantedTags, if_neg hex]
    show (!containsExcludedTag (.elem tag attrs (removeUnwantedL cs))) = true
    rw [containsExcludedTag]
    have hex2 : excluded_tags.contains tag = false := by
      cases hc : excluded_tags.contains tag
      · rfl
      · exact absurd hc hex
    rw [hex2, hcs]
    rfl
  · intro s; rfl
  · intro s; rfl
  · rfl
  · intro c r u hu h1 h2
    rw [removeUnwantedL, hu]
    rw [hu] at h1
    have hcu : containsExcludedTag u = false := by simpa using h1
    show (containsExcludedTag u || containsExcludedL (removeUnwantedL r)) = false
    rw [hcu, h2]
    rfl
  · intro c r hu h1 h2
    rw [removeUnwantedL, hu]
    exact h2

lemma removeUnwanted_no_excluded (t : HNode) :
    (removeUnwantedTags t).all (fun u => !containsExcludedTag u) = true := by
  cases t with
  | text s => rfl
  | comment s => rfl
  | elem tag attrs cs =>
    rw [removeUnwantedTags]
    cases hex : excluded_tags.contains tag with
    | true => rfl
    | false =>
      show (!containsExcludedTag (.elem tag attrs (removeUnwantedL cs))) = true
      rw [containsExcludedTag, hex, removeUnwantedL_no_excluded cs]
      rfl

lemma pruneChildren_no_excluded (cfg : PruningCfg) :
    ∀ cs : List HNode, containsExcludedL cs = false →
      containsExcludedL (pruneChildren cfg cs) = false := by
  apply pruneChildren.induct cfg
    (fun t => containsExcludedTag t = false →
      (pruneTree cfg t).all (fun u => !containsExcludedTag u) = true)
    (fun cs => containsExcludedL cs = false →
      containsExcludedL (pruneChildren cfg cs) = false)
  · intro s _; rfl
  · intro s _; rfl
  · intro tag attrs cs hrem _
    rw [pruneTree, if_pos hrem]
    rfl
  · intro tag attrs cs hrem hcs hin
    rw [pruneTree, if_neg hrem]
    rw [containsExcludedTag, Bool.or_eq_false_iff] at hin
    show (!containsExcludedTag (.elem tag attrs (pruneChildren cfg cs))) = true
    rw [containsExcludedTag, hin.1, hcs hin.2]
    rfl
  · intro _; rfl
  · intro t a cs2 rest h1 hr hin
    have hin2 : containsExcludedTag (HNode.elem t a cs2) = false ∧
        containsExcludedL rest = false := by
      have hx := hin
      rw [show containsExcludedL (HNode.elem t a cs2 :: rest) =
        (containsExcludedTag (HNode.elem t a cs2) || containsExcludedL rest) from rfl,
        Bool.or_eq_false_iff] at hx
      exact hx
    rw [pruneChildren]
    have hall := h1 hin2.1
    cases hp : pruneTree cfg (.elem t a cs2) with
    | none =>
      show containsExcludedL (([] : List HNode) ++ pruneChildren cfg rest) = false
      rw [List.nil_append]
      exact hr hin2.2
    | some u =>
      rw [hp] at hall
      have hcu : containsExcludedTag u = false := by simpa using hall
      show containsExcludedL ([u] ++ pruneChildren cfg rest) = false
      rw [List.singleton_append]
      show (containsExcludedTag u || containsExcludedL (pruneChildren cfg rest)) = false
      rw [hcu, hr hin2.2]
      rfl
  · intro c rest hne hr hin
    have hin2 : containsExcludedTag c = false ∧ containsExcludedL rest = false := by
      have hx := hin
      rw [show containsExcludedL (c :: rest) =
        (containsExcludedTag c || containsExcludedL rest) from rfl,
        Bool.or_eq_false_iff] at hx
      exact hx
    rw [pruneChildren]
    · show (containsExcludedTag c || containsExcludedL (pruneChildren cfg rest)) = false
      rw [hin2.1, hr hin2.2]
      rfl
    · exact hne

lemma pruneTree_no_excluded (cfg : PruningCfg) (t : HNode)
    (h : containsExcludedTag t = false) :
    (pruneTree cfg t).all (fun u => !containsExcludedTag u) = true := by
  cases t with
  | text s => rfl
  | comment s => rfl
  | elem tag attrs cs =>
    rw [pruneTree]
    by_cases hrem : shouldRemoveNode cfg (.elem tag attrs cs) = true
    · rw [if_pos hrem]; rfl
    · rw [if_neg hrem]
      rw [containsExcludedTag, Bool.or_eq_false_iff] at h
      show (!containsExcludedTag (.elem tag attrs (pruneChildren cfg cs))) = true
      rw [containsExcludedTag, h.1, pruneChildren_no_excluded cfg cs h.2]
      rfl

/-- C5: every element with a tag in the fixed excluded set
    `{nav, footer, header, aside, script, style, form, iframe, noscript}` is
    removed unconditionally — `_remove_unwanted_tags` leaves no such element
    at any depth, before any scoring happens and for every configuration —
    and consequently no fragment returned by `filter_content` contains an
    element with one of those tags. -/
theorem c5_excluded_tags_removed :
    (∀ t : HNode,
      (removeUnwantedTags t).all (fun u => !containsExcludedTag u) = true) ∧
    (∀ (cfg : PruningCfg) (body : HNode),
      List.Forall (fun t => containsExcludedTag t = false)
        (filterSurvivors cfg body)) := by
  refine ⟨removeUnwanted_no_excluded, ?_⟩
  intro cfg body
  rw [filterSurvivors]
  cases hru : removeUnwantedTags (removeComments body) with
  | none => exact trivial
  | some b2 =>
    have hb2 : containsExcludedTag b2 = false := by
      have hall := removeUnwanted_no_excluded (removeComments body)
      rw [hru] at hall
      simpa using hall
    dsimp only
    cases hpr : pruneTree cfg b2 with
    | none => exact trivial
    | some b3 =>
      dsimp only
      have hb3 : containsExcludedTag b3 = false := by
        have hall := pruneTree_no_excluded cfg b2 hb2
        rw [hpr] at hall
        simpa using hall
      have hch : ∀ c ∈ childrenOf b3, containsExcludedTag c = false := by
        cases b3 with
        | text s => intro c hc; simp [childrenOf] at hc
        | comment s => intro c hc; simp [childrenOf] at hc
        | elem t a cs =>
          rw [containsExcludedTag, Bool.or_eq_false_iff] at hb3
          exact fun c hc => containsExcludedL_mem cs hb3.2 c hc
      rw [List.forall_iff_forall_mem]
      intro c hc
      exact hch c (List.mem_of_mem_filter hc)

end TianchiCrawler
